import Mathlib

/-!
Verification of the `uri_template` library (RFC 6570 URI templates).

Shallow embedding of `uri_template/uritemplate.py` and
`uri_template/variable.py`.  Strings are modelled as `List Char`
(Python `str` values, character by character).  Fallible Python code
(constructors that `raise`) is modelled with `Except`.

The repository files `uri_template/charset.py` and
`uri_template/expansions.py` are imported by the two sources above but are
not part of the sources available here; the definitions that stand in for
them are marked `Modelled from the spec:` and follow the specification text.
-/

deriving instance DecidableEq for Except

namespace UriTmpl

/-! ## Character classes (charset.py) -/

/-- Modelled from the spec: `charset.py` is missing.  ASCII letters,
as used by the character-class table (spec section 4.1). -/
def isAlpha (c : Char) : Bool :=
  ('a' ≤ c && c ≤ 'z') || ('A' ≤ c && c ≤ 'Z')

/-- Modelled from the spec: `charset.py` is missing.  `Charset.DIGIT`,
the decimal digits. -/
def isDigit (c : Char) : Bool :=
  '0' ≤ c && c ≤ '9'

/-- Modelled from the spec: `charset.py` is missing.  `Charset.HEX_DIGIT`. -/
def isHexDigit (c : Char) : Bool :=
  isDigit c || ('a' ≤ c && c ≤ 'f') || ('A' ≤ c && c ≤ 'F')

/-- Modelled from the spec: `charset.py` is missing.  `Charset.VAR_START`,
the legal first characters of a variable name: per spec section 4.1
"letters, digits, `_`, plus percent-escape triples" (`%` opens a triple).
This matches the simple-expansion dispatch regex in `uritemplate.py`
(`[a-zA-Z0-9_]` or a percent triple) and RFC 6570 `varchar`. -/
def isVarStart (c : Char) : Bool :=
  isAlpha c || isDigit c || c = '_' || c = '%'

/-- Modelled from the spec: `charset.py` is missing.  `Charset.VAR_CHAR`,
the legal continuation characters of a variable name (letters, digits,
`_`); percent-escape triples are consumed separately by the name scan. -/
def isVarChar (c : Char) : Bool :=
  isAlpha c || isDigit c || c = '_'

/-- Modelled from the spec: `charset.py` is missing.  RFC 3986 unreserved
characters (spec section 4.1). -/
def isUnreserved (c : Char) : Bool :=
  isAlpha c || isDigit c || c = '-' || c = '.' || c = '_' || c = '~'

/-- Modelled from the spec: `charset.py` is missing.  RFC 3986 reserved
characters, gen-delims plus sub-delims (spec section 4.1).
`Char.ofNat 39` is the apostrophe. -/
def reservedChars : List Char :=
  [':', '/', '?', '#', '[', ']', '@', '!', '$', '&', Char.ofNat 39,
   '(', ')', '*', '+', ',', ';', '=']

/-- Modelled from the spec: `charset.py` is missing.  `Charset.RESERVED`
membership. -/
def isReserved (c : Char) : Bool :=
  reservedChars.contains c

/-! ## Small string helpers (Python `str` operations) -/

/-- Python `s.split(sep, 1)`: split on the first occurrence of `sep`,
returning `none` when `sep` does not occur (Python `sep in s` is false). -/
def splitOnFirst (sep : Char) : List Char → Option (List Char × List Char)
  | [] => none
  | c :: rest =>
    if c = sep then some ([], rest)
    else (splitOnFirst sep rest).map (fun p => (c :: p.1, p.2))

/-- Python `s.split(sep)` for one-character `sep`: always returns at least
one piece; `"".split(sep) == [""]`. -/
def splitAllOn (sep : Char) : List Char → List (List Char)
  | [] => [[]]
  | c :: rest =>
    if c = sep then [] :: splitAllOn sep rest
    else
      match splitAllOn sep rest with
      | [] => [[c]]
      | p :: ps => (c :: p) :: ps

/-- Python `int(s)` on a string of decimal digits. -/
def digitsToNat (s : List Char) : Nat :=
  s.foldl (fun a c => 10 * a + (c.toNat - 48)) 0

/-! ## Errors -/

/-- The exceptions a template constructor can raise: `VariableInvalid`
(variable.py), `ExpansionInvalid` and `ExpansionReserved` (uritemplate.py),
and a Python `IndexError` (from `var_spec[-1]` on an empty variable
specification, variable.py line 58). -/
inductive PErr where
  | variableInvalid (s : List Char)
  | expansionInvalid (s : List Char)
  | expansionReserved (s : List Char)
  | indexError
  deriving DecidableEq

/-! ## Variable (variable.py) -/

/-- `Variable`: name, `max_length` (0 = unconstrained), `explode`, `array`,
optional `default` (variable.py). -/
structure Variable where
  name : List Char
  max_length : Nat
  explode : Bool
  array : Bool
  default : Option (List Char)
  deriving DecidableEq

/-- The error message of the name-scan failure in `Variable.__init__`
(variable.py lines 78-79): the stripped spec plus its re-synthesized
suffix. -/
def scanErrMsg (orig : List Char) (ml : Nat) (ex ar : Bool) : List Char :=
  orig ++ (if ml ≠ 0 then ':' :: Nat.toDigits 10 ml else [])
    ++ (if ar then ['[', ']'] else if ex then ['*'] else [])

/-- The name scan of `Variable.__init__` (variable.py lines 66-80): a `%`
followed by two hex digits is copied as a three-character unit; a
`VAR_CHAR` is copied; anything else raises `VariableInvalid`.  `orig` is
the stripped spec, kept for the error message. -/
def scanNameLoop (orig : List Char) (ml : Nat) (ex ar : Bool) :
    List Char → List Char → Except PErr (List Char)
  | [], acc => .ok acc
  | '%' :: h1 :: h2 :: rest, acc =>
    if isHexDigit h1 && isHexDigit h2 then
      scanNameLoop orig ml ex ar rest (acc ++ ['%', h1, h2])
    else if isVarChar '%' then
      scanNameLoop orig ml ex ar (h1 :: h2 :: rest) (acc ++ ['%'])
    else .error (.variableInvalid (scanErrMsg orig ml ex ar))
  | c :: rest, acc =>
    if isVarChar c then scanNameLoop orig ml ex ar rest (acc ++ [c])
    else .error (.variableInvalid (scanErrMsg orig ml ex ar))

/-- The name scan followed by the construction of the finished `Variable`
from the fields accumulated by `Variable.__init__`. -/
def scanName (orig : List Char) (ml : Nat) (ex ar : Bool)
    (dflt : Option (List Char)) (cs acc : List Char) : Except PErr Variable :=
  (scanNameLoop orig ml ex ar cs acc).map (fun nm => ⟨nm, ml, ex, ar, dflt⟩)

/-- `Variable.__init__` after the `=` default split (variable.py lines
47-80): the `:` prefix-length branch, else the `*` explode suffix, else the
`[]` array suffix, then the name scan.  An empty spec reaches Python
`var_spec[-1]` and raises `IndexError`. -/
def parseVarAfterEq (vspec : List Char) (dflt : Option (List Char)) :
    Except PErr Variable :=
  match splitOnFirst ':' vspec with
  | some (l2, ml) =>
    if 0 < ml.length && ml.length < 4 then
      if ml.all isDigit then
        if digitsToNat ml = 0 then
          .error (.variableInvalid (l2 ++ ':' :: ml))
        else scanName l2 (digitsToNat ml) false false dflt l2 []
      else .error (.variableInvalid (l2 ++ ':' :: ml))
    else .error (.variableInvalid (l2 ++ ':' :: ml))
  | none =>
    match vspec.getLast? with
    | none => .error .indexError
    | some lc =>
      if lc = '*' then
        scanName vspec.dropLast 0 true false dflt vspec.dropLast []
      else if vspec.reverse.take 2 = [']', '['] then
        scanName vspec.dropLast.dropLast 0 true true dflt
          vspec.dropLast.dropLast []
      else scanName vspec 0 false false dflt vspec []

/-- `Variable.__init__` (variable.py lines 34-80): the `VAR_START` check on
the first character, the split on the first `=` into spec and default,
then `parseVarAfterEq`. -/
def parseVariable (vs : List Char) : Except PErr Variable :=
  match vs with
  | [] => parseVarAfterEq [] none
  | c0 :: _ =>
    if isVarStart c0 then
      match splitOnFirst '=' vs with
      | some (l1, r1) => parseVarAfterEq l1 (some r1)
      | none => parseVarAfterEq vs none
    else .error (.variableInvalid vs)

/-- `Variable.__str__` (variable.py lines 82-86): name, `:max_length` when
set (printed via `str(int)`, so without leading zeros), `*` when exploded
but not array, `[]` when array, `=default` when present. -/
def varStr (v : Variable) : List Char :=
  v.name
    ++ (if v.max_length ≠ 0 then ':' :: Nat.toDigits 10 v.max_length else [])
    ++ (if v.explode && !v.array then ['*'] else [])
    ++ (if v.array then ['[', ']'] else [])
    ++ (match v.default with | some d => '=' :: d | none => [])

/-! ## Expansion nodes (expansions.py shapes, uritemplate.py dispatch) -/

/-- Modelled from the spec: `expansions.py` is missing.  The ten directive
operator kinds of spec section 3 ("Expansion Node"): none/simple, `+`, `#`,
`.`, `/`, `;`, `?`, `&`, `,`, `,+`. -/
inductive Op where
  | simple | reserved | fragment | label | path | pathStyle
  | query | queryCont | comma | reservedComma
  deriving DecidableEq

/-- Modelled from the spec: `expansions.py` is missing.  An expansion node
is either a literal text run or an operator-bound directive owning its
parsed Variable Specifications in order (spec section 3). -/
inductive Expansion where
  | literal (text : List Char)
  | directive (op : Op) (vars : List Variable)
  deriving DecidableEq

/-- Modelled from the spec: `expansions.py` is missing.  The operator
characters as they appear in the template source. -/
def opStr : Op → List Char
  | .simple => []
  | .reserved => ['+']
  | .fragment => ['#']
  | .label => ['.']
  | .path => ['/']
  | .pathStyle => [';']
  | .query => ['?']
  | .queryCont => ['&']
  | .comma => [',']
  | .reservedComma => [',', '+']

/-- Modelled from the spec: `expansions.py` is missing.  Each directive's
`__str__` is "a string round-trip of its own source syntax" (spec
section 3): the operator character(s) and the comma-joined variable
specifications as printed by `Variable.__str__`, inside braces.  A literal
prints its stored text. -/
def expansionStr : Expansion → List Char
  | .literal t => t
  | .directive op vars =>
    '{' :: (opStr op ++ List.intercalate [','] (vars.map varStr)) ++ ['}']

/-- Modelled from the spec: `expansions.py` is missing.  Each directive
body "(after the leading operator character, if any) is then split on
top-level `,` and each piece handed to the Variable Specification parser"
(spec section 4.4); a `VariableInvalid` error propagates out. -/
def parseVars (body : List Char) : Except PErr (List Variable) :=
  (splitAllOn ',' body).mapM parseVariable

/-- Modelled from the spec: `expansions.py` is missing.  The Variable
Specifications a node exposes (spec section 3): none for a literal, the
owned ordered list for a directive. -/
def nodeVars : Expansion → List Variable
  | .literal _ => []
  | .directive _ vars => vars

/-! ## Template tokenization (uritemplate.py line 48) -/

/-- Python `re` semantics of `.*$` (no DOTALL): matches a string iff it
has no newline, except that a single trailing newline is allowed. -/
def dotStarDollar (s : List Char) : Bool :=
  match s.getLast? with
  | some c => if c = '\n' then !s.dropLast.contains '\n' else !s.contains '\n'
  | none => true

/-- The first character class of the simple-expansion dispatch regex
`[a-zA-Z0-9_]` (uritemplate.py line 53). -/
def isRegexVarStartChar (c : Char) : Bool :=
  isAlpha c || isDigit c || c = '_'

/-- The dispatch regex `^([a-zA-Z0-9_]|%[0-9a-fA-F][0-9a-fA-F]).*$` of
uritemplate.py line 53, applied to a directive body. -/
def simpleStartMatch : List Char → Bool
  | [] => false
  | '%' :: h1 :: h2 :: rest =>
    isHexDigit h1 && isHexDigit h2 && dotStarDollar rest
  | c :: rest => isRegexVarStartChar c && dotStarDollar rest

/-- Helper of `pySplitGo`: given the characters after a `{`, take the run
`[^}]*` up to the first `}`, returning it and the remainder after the `}`;
`none` when no `}` follows. -/
def takeUntilRBrace : List Char → Option (List Char × List Char)
  | [] => none
  | '}' :: rest => some ([], rest)
  | c :: rest => (takeUntilRBrace rest).map (fun p => (c :: p.1, p.2))

/-- `re.split(r'(\{[^\}]*\})', template)` (uritemplate.py line 48): the
template is cut at every leftmost-first match of `\{[^}]*\}` and the
matches themselves are kept as parts.  `fuel` only bounds the recursion
and is never exhausted when it starts at the input length. -/
def pySplitGo (fuel : Nat) (cs : List Char) (acc : List Char) :
    List (List Char) :=
  match fuel with
  | 0 => [acc.reverse ++ cs]
  | fuel' + 1 =>
    match cs with
    | [] => [acc.reverse]
    | '{' :: rest =>
      match takeUntilRBrace rest with
      | some (inside, after) =>
        acc.reverse :: ('{' :: inside ++ ['}']) :: pySplitGo fuel' after []
      | none => [acc.reverse ++ '{' :: rest]
    | c :: rest => pySplitGo fuel' rest (c :: acc)

/-- The token split of uritemplate.py line 48. -/
def pySplit (cs : List Char) : List (List Char) :=
  pySplitGo cs.length cs []

/-! ## Template parsing (URITemplate.__init__) -/

/-- The operator characters reserved for future use by RFC 6570
(uritemplate.py line 74: `part[1] in '=!@|'`). -/
def opReserved : List Char := ['=', '!', '@', '|']

/-- The per-part dispatch of `URITemplate.__init__` (uritemplate.py lines
50-82): a brace-delimited part is dispatched on the regex of line 53 and
then on its second character; a braceless part becomes a literal; a part
with a stray brace raises `ExpansionInvalid`.  The `none` arm of the
second-character match is unreachable for parts produced by the
tokenizer (a braced part has at least two characters). -/
def processPart (part : List Char) : Except PErr Expansion :=
  if part.head? = some '{' && part.getLast? = some '}' then
    let body := (part.drop 1).dropLast
    if simpleStartMatch body then (parseVars body).map (.directive .simple)
    else
      match part.get? 1 with
      | some '+' => (parseVars (body.drop 1)).map (.directive .reserved)
      | some '#' => (parseVars (body.drop 1)).map (.directive .fragment)
      | some '.' => (parseVars (body.drop 1)).map (.directive .label)
      | some '/' => (parseVars (body.drop 1)).map (.directive .path)
      | some ';' => (parseVars (body.drop 1)).map (.directive .pathStyle)
      | some '?' => (parseVars (body.drop 1)).map (.directive .query)
      | some '&' => (parseVars (body.drop 1)).map (.directive .queryCont)
      | some ',' =>
        if part.get? 2 = some '+' then
          (parseVars (body.drop 2)).map (.directive .reservedComma)
        else (parseVars (body.drop 1)).map (.directive .comma)
      | some c =>
        if c ∈ opReserved then .error (.expansionReserved part)
        else .error (.expansionInvalid part)
      | none => .error (.expansionInvalid part)
  else
    if !part.contains '{' && !part.contains '}' then .ok (.literal part)
    else .error (.expansionInvalid part)

/-- A parsed template: its ordered list of expansion nodes
(uritemplate.py line 44). -/
structure URITemplate where
  expansions : List Expansion
  deriving DecidableEq

/-- `URITemplate.__init__` (uritemplate.py lines 46-82): tokenize, skip
empty parts, dispatch each part in order; the first raised error aborts
construction. -/
def URITemplate.parse (cs : List Char) : Except PErr URITemplate :=
  (((pySplit cs).filter (fun p => !p.isEmpty)).mapM processPart).map
    URITemplate.mk

/-- `URITemplate.__str__` (uritemplate.py lines 123-125): the
concatenation of every node's string form. -/
def templateStr (t : URITemplate) : List Char :=
  (t.expansions.map expansionStr).flatten

/-! ## Value environments (spec section 3, "Value Environment") -/

/-- A bound value: a scalar string, an ordered sequence of strings, or an
associative mapping of string keys to string values (spec section 3). -/
inductive Value where
  | str (s : List Char)
  | seq (xs : List (List Char))
  | assoc (kvs : List (List Char × List Char))
  deriving DecidableEq

/-- A value environment: a mapping from variable name to value, supplied
by the caller (Python keyword arguments, so keys are distinct). -/
def Env : Type := List (List Char × Value)

/-- Environment lookup by variable name. -/
def lookupEnv (env : Env) (k : List Char) : Option Value :=
  match env with
  | [] => none
  | (k2, w) :: rest => if k2 = k then some w else lookupEnv rest k

/-! ## Per-operator expansion (expansions.py algorithms) -/

/-- Modelled from the spec: `expansions.py` is missing.  The four
per-operator constants of spec section 4.3: prefix (`first`), separator,
`named`, `ifemp`, and the allow-reserved encoding policy. -/
structure OpSpec where
  first : List Char
  sep : List Char
  named : Bool
  ifemp : List Char
  allowReserved : Bool

/-- Modelled from the spec: `expansions.py` is missing.  The operator
constant table of spec section 4.3 (RFC 6570 section 3.2); the `,` and
`,+` extension operators join with commas like the simple operator, the
`,+` variant with the reserved encoding policy. -/
def opSpec : Op → OpSpec
  | .simple => ⟨[], [','], false, [], false⟩
  | .reserved => ⟨[], [','], false, [], true⟩
  | .fragment => ⟨['#'], [','], false, [], true⟩
  | .label => ⟨['.'], ['.'], false, [], false⟩
  | .path => ⟨['/'], ['/'], false, [], false⟩
  | .pathStyle => ⟨[';'], [';'], true, [], false⟩
  | .query => ⟨['?'], ['&'], true, ['='], false⟩
  | .queryCont => ⟨['&'], ['&'], true, ['='], false⟩
  | .comma => ⟨[], [','], false, [], false⟩
  | .reservedComma => ⟨[], [','], false, [], true⟩

/-- Upper-case hexadecimal digit of a value below 16. -/
def hexDigitChar (n : Nat) : Char :=
  if n < 10 then Char.ofNat (48 + n) else Char.ofNat (55 + n)

/-- A percent-escape triple for one byte. -/
def pctTriple (b : Nat) : List Char :=
  ['%', hexDigitChar (b / 16), hexDigitChar (b % 16)]

/-- The UTF-8 bytes of a code point. -/
def utf8Bytes (n : Nat) : List Nat :=
  if n < 128 then [n]
  else if n < 2048 then [192 + n / 64, 128 + n % 64]
  else if n < 65536 then
    [224 + n / 4096, 128 + (n / 64) % 64, 128 + n % 64]
  else
    [240 + n / 262144, 128 + (n / 4096) % 64, 128 + (n / 64) % 64,
     128 + n % 64]

/-- Modelled from the spec: `expansions.py` is missing.  Percent-encoding
of one character under an operator's policy (spec section 4.3): an
unreserved character, or a reserved one when allow-reserved is set, passes
through; anything else is escaped byte by byte. -/
def encodeChar (ar : Bool) (c : Char) : List Char :=
  if isUnreserved c || (ar && isReserved c) then [c]
  else ((utf8Bytes c.toNat).map pctTriple).flatten

/-- Modelled from the spec: `expansions.py` is missing.  Percent-encoding
of a string. -/
def encodeStr (ar : Bool) (s : List Char) : List Char :=
  (s.map (encodeChar ar)).flatten

/-- Modelled from the spec: `expansions.py` is missing.  The `ExpansionFailed`
exception of spec section 7, raised during expansion "when a bound value
cannot be rendered under a given operator's rules". -/
inductive ExpFail where
  | expansionFailed
  deriving DecidableEq

/-- Modelled from the spec: `expansions.py` is missing.  The value a
variable resolves to: its environment binding, else its default treated
as a bound scalar (spec section 4.3, "Absent value with a default"). -/
def boundValue (env : Env) (v : Variable) : Option Value :=
  match lookupEnv env v.name with
  | some w => some w
  | none => v.default.map Value.str

/-- Modelled from the spec: `expansions.py` is missing.  The `name=value`
shaping of one contribution for named operators (spec section 4.3):
`name` then `ifemp` when the raw value is empty, else `=` and the encoded
value; non-named operators emit the bare encoded value. -/
def namedWrap (os : OpSpec) (name enc : List Char) (rawEmpty : Bool) :
    List Char :=
  if os.named then name ++ (if rawEmpty then os.ifemp else '=' :: enc)
  else enc

/-- Modelled from the spec: `expansions.py` is missing.  Per-variable
expansion (spec section 4.3): an unbound variable without default
contributes nothing; a scalar is truncated to `max_length` characters
then encoded; sequences and mappings are joined per the explode flag.  A
composite value under a `max_length` prefix cannot be rendered (RFC 6570:
prefix modifiers do not apply to composite values) and raises
`ExpansionFailed`; an empty composite contributes nothing. -/
def expandVar (os : OpSpec) (env : Env) (v : Variable) :
    Except ExpFail (Option (List Char)) :=
  match boundValue env v with
  | none => .ok none
  | some (.str s) =>
    let truncated := if v.max_length ≠ 0 then s.take v.max_length else s
    .ok (some (namedWrap os v.name (encodeStr os.allowReserved truncated)
      truncated.isEmpty))
  | some (.seq xs) =>
    if v.max_length ≠ 0 then .error .expansionFailed
    else if xs.isEmpty then .ok none
    else if v.explode then
      .ok (some (List.intercalate os.sep (xs.map fun x =>
        namedWrap os v.name (encodeStr os.allowReserved x) x.isEmpty)))
    else
      .ok (some (namedWrap os v.name
        (List.intercalate [','] (xs.map (encodeStr os.allowReserved)))
        false))
  | some (.assoc kvs) =>
    if v.max_length ≠ 0 then .error .expansionFailed
    else if kvs.isEmpty then .ok none
    else if v.explode then
      .ok (some (List.intercalate os.sep (kvs.map fun kv =>
        encodeStr os.allowReserved kv.1 ++ '=' ::
          encodeStr os.allowReserved kv.2)))
    else
      .ok (some (namedWrap os v.name
        (List.intercalate [','] (kvs.map fun kv =>
          encodeStr os.allowReserved kv.1 ++ ',' ::
            encodeStr os.allowReserved kv.2))
        false))

/-- Modelled from the spec: `expansions.py` is missing.  Directive-level
`expand` (spec section 4.3): each variable's contribution, joined by the
separator, behind the prefix when any output was produced; a directive
with no output contributes nothing (its node returns Python `None`); a
literal returns its text. -/
def expandNode (env : Env) : Expansion → Except ExpFail (Option (List Char))
  | .literal t => .ok (some t)
  | .directive op vars => do
    let parts ← vars.mapM (expandVar (opSpec op) env)
    let actual := parts.filterMap id
    if actual.isEmpty then pure none
    else pure (some ((opSpec op).first ++ List.intercalate (opSpec op).sep actual))

/-- `URITemplate.expand` (uritemplate.py lines 102-108): every node's
expansion in order; `ExpansionFailed` is caught and turned into `none`;
otherwise the non-`None` results are concatenated. -/
def URITemplate.expand (t : URITemplate) (env : Env) : Option (List Char) :=
  match t.expansions.mapM (expandNode env) with
  | .error _ => none
  | .ok parts => some (parts.filterMap id).flatten

/-- `URITemplate.expanded` (uritemplate.py lines 118-121): string equality
between the template's own text and its expansion with no bindings
(Python `str == None` is false). -/
def URITemplate.expanded (t : URITemplate) : Bool :=
  match t.expand [] with
  | some s => templateStr t == s
  | none => false

/-! ## Partial expansion -/

/-- Modelled from the spec: `expansions.py` is missing.  The residual
operator of a mixed directive: when some variables were rendered, a
residual `?` directive degrades to the `&` continuation so the emitted
text stays a valid template fragment (spec section 4.4, "Mixed directives
degrade to an equivalent directive"). -/
def residualOp (op : Op) (renderedEmpty : Bool) : Op :=
  if renderedEmpty then op
  else match op with
    | .query => .queryCont
    | o => o

/-- Modelled from the spec: `expansions.py` is missing.  Directive-level
`partial` (spec sections 4.3 and 4.4): bound variables are substituted as
in `expand`; unbound variables, and bound ones whose value cannot be
rendered, are re-emitted as directive syntax ("partial never fails this
way because unresolved/ill-typed variables are instead re-emitted as the
original directive syntax"), so a node's partial is total. -/
def nodeResidual (env : Env) : Expansion → List Char
  | .literal t => t
  | .directive op vars =>
    let os := opSpec op
    let results := vars.map fun v =>
      match lookupEnv env v.name with
      | none => Sum.inr v
      | some _ =>
        match expandVar os env v with
        | .error _ => Sum.inr v
        | .ok o => Sum.inl o
    let rendered := results.filterMap fun r =>
      match r with
      | .inl o => o
      | .inr _ => none
    let kept := results.filterMap fun r =>
      match r with
      | .inl _ => none
      | .inr v => some v
    let renderedText :=
      if rendered.isEmpty then [] else os.first ++ List.intercalate os.sep rendered
    let keptText :=
      if kept.isEmpty then []
      else '{' :: (opStr (residualOp op rendered.isEmpty)
        ++ List.intercalate [','] (kept.map varStr)) ++ ['}']
    renderedText ++ keptText

/-- `URITemplate.partial` (uritemplate.py lines 110-116): every node's
partial result in order; an `ExpansionFailed` would be caught and turned
into the Python `None` return (`.ok none` here), but node partials are
total; the concatenation is re-parsed into a fresh template, and a parse
error of that reconstruction propagates as a raised exception. -/
def URITemplate.residual (t : URITemplate) (env : Env) :
    Except PErr (Option URITemplate) :=
  match t.expansions.mapM
      (fun e => (Except.ok (nodeResidual env e) : Except ExpFail (List Char))) with
  | .error _ => .ok none
  | .ok parts => (URITemplate.parse parts.flatten).map some

/-! ## variables / variable_names (uritemplate.py lines 84-100) -/

/-- One `vars[var.name] = var` step on a `collections.OrderedDict`
represented as an association list: an existing key keeps its position
but its value is overwritten; a new key is appended. -/
def odInsert (m : List (List Char × Variable)) (v : Variable) :
    List (List Char × Variable) :=
  if m.any (fun p => p.1 = v.name) then
    m.map (fun p => if p.1 = v.name then (v.name, v) else p)
  else m ++ [(v.name, v)]

/-- All Variable Specifications of a template's nodes, in textual order
(the nested loop of uritemplate.py lines 88-90). -/
def allVars (t : URITemplate) : List Variable :=
  (t.expansions.map nodeVars).flatten

/-- The `OrderedDict` built by `URITemplate.variables` and
`URITemplate.variable_names` (uritemplate.py lines 87-90 and 96-99). -/
def odFold (vs : List Variable) : List (List Char × Variable) :=
  vs.foldl odInsert []

/-- `URITemplate.variables` (uritemplate.py lines 84-91): the values of
the `OrderedDict`. -/
def URITemplate.variables (t : URITemplate) : List Variable :=
  (odFold (allVars t)).map Prod.snd

/-- `URITemplate.variable_names` (uritemplate.py lines 93-100): the names
of the values of the `OrderedDict`. -/
def URITemplate.variable_names (t : URITemplate) : List (List Char) :=
  (odFold (allVars t)).map (fun p => p.2.name)

/-- The spec's words for `variables` (spec sections 4.4 and 9): the
"de-duplicated (first-occurrence-wins), insertion-ordered union of every
node's Variable Specifications, by name" — keeping, for each name, the
first Variable Specification bearing it.  Stated for comparison with
`URITemplate.variables`. -/
def firstWinsVariables (t : URITemplate) : List Variable :=
  (allVars t).foldl
    (fun acc v => if acc.any (fun w => w.name = v.name) then acc else acc ++ [v])
    []

/-- First-occurrence deduplication of a list of names, given the names
already seen. -/
def firstDedupFrom (seen : List (List Char)) : List (List Char) → List (List Char)
  | [] => []
  | n :: ns =>
    if n ∈ seen then firstDedupFrom seen ns
    else n :: firstDedupFrom (n :: seen) ns

/-- The last Variable Specification with a given name, if any. -/
def lastWith (vs : List Variable) (k : List Char) : Option Variable :=
  match vs with
  | [] => none
  | v :: rest =>
    match lastWith rest k with
    | some w => some w
    | none => if v.name = k then some v else none

/-- Association-list lookup in the `OrderedDict` representation. -/
def lookupOD : List (List Char × Variable) → List Char → Option Variable
  | [], _ => none
  | (k2, w) :: rest, k => if k2 = k then some w else lookupOD rest k

/-- The left side of a variable specification after the split on the
first `=` (the spec's "after any `=` default split"). -/
def leftOfEq (vs : List Char) : List Char :=
  match splitOnFirst '=' vs with
  | some p => p.1
  | none => vs

/-- A legal prefix-length suffix: 1 to 3 decimal digits of nonzero
integer value (variable.py lines 49-55). -/
def goodPrefix (r : List Char) : Bool :=
  decide (0 < r.length) && decide (r.length < 4) && r.all isDigit &&
    decide (digitsToNat r ≠ 0)

/-! ## Helper lemmas -/

/-- A successful name scan yields exactly the fields it was called with. -/
theorem scanName_ok_fields (orig : List Char) (ml : Nat) (ex ar : Bool)
    (dflt : Option (List Char)) (cs acc : List Char) (v : Variable)
    (h : scanName orig ml ex ar dflt cs acc = .ok v) :
    v.max_length = ml ∧ v.explode = ex ∧ v.array = ar ∧ v.default = dflt := by
  unfold scanName at h
  cases hl : scanNameLoop orig ml ex ar cs acc with
  | ok nm => rw [hl] at h; cases h; exact ⟨rfl, rfl, rfl, rfl⟩
  | error e => rw [hl] at h; cases h

/-- Mapping a total function through `mapM` in the `Except` monad never
fails. -/
theorem mapM_ok_list {α ε : Type} (f : α → List Char) (l : List α) :
    (l.mapM (fun a => (Except.ok (f a) : Except ε (List Char)))) =
      .ok (l.map f) := by
  induction l with
  | nil => rfl
  | cons a l ih => rw [List.mapM_cons, ih]; rfl

/-! ## Claim theorems -/

/-- C1: the round-trip claim fails on the code.  The template `{a:03}`
constructs without raising (the prefix-length check only demands 1-3
digits of nonzero value), but its string form is `{a:3}`: `int('03')` is
stored and `str(3)` is printed, so the original text is not reproduced,
contradicting `__str__`'s own docstring "returns original template". -/
theorem roundtrip_fails_on_leading_zero_prefix :
    URITemplate.parse ['{', 'a', ':', '0', '3', '}'] =
      .ok ⟨[.directive .simple [⟨['a'], 3, false, false, none⟩]]⟩
    ∧ templateStr ⟨[.directive .simple [⟨['a'], 3, false, false, none⟩]]⟩ =
      ['{', 'a', ':', '3', '}']
    ∧ (['{', 'a', ':', '3', '}'] : List Char) ≠ ['{', 'a', ':', '0', '3', '}'] :=
  ⟨rfl, rfl, by decide⟩

/-- C3: `URITemplate.expand` either returns the in-order concatenation of
every node's expansion result (the non-`None` ones) or, when some node's
expansion raises `ExpansionFailed`, catches it and returns the no-result
value; by its `Option` return type it never propagates the failure. -/
theorem expand_catches_expansion_failure (t : URITemplate) (env : Env) :
    (∃ parts, t.expansions.mapM (expandNode env) = .ok parts ∧
      t.expand env = some (parts.filterMap id).flatten)
    ∨ (∃ f, t.expansions.mapM (expandNode env) = .error f ∧
      t.expand env = none) := by
  cases h : t.expansions.mapM (expandNode env) with
  | ok parts => exact .inl ⟨parts, rfl, by unfold URITemplate.expand; rw [h]⟩
  | error f => exact .inr ⟨f, rfl, by unfold URITemplate.expand; rw [h]⟩

/-- C2: `URITemplate.partial` (modelled as `URITemplate.residual`) is
exactly the re-parse of the concatenation of the per-node partial
results; in particular it never returns the no-result value (so missing
variables cannot cause one), and its only failures are parse-level errors
of the reconstruction, never `ExpansionFailed`. -/
theorem residual_is_reparse_of_concat (t : URITemplate) (env : Env) :
    t.residual env =
      (URITemplate.parse ((t.expansions.map (nodeResidual env)).flatten)).map some
    ∧ t.residual env ≠ .ok none := by
  have h := mapM_ok_list (ε := ExpFail) (nodeResidual env) t.expansions
  refine ⟨by unfold URITemplate.residual; rw [h], ?_⟩
  unfold URITemplate.residual
  rw [h]
  cases hp : URITemplate.parse ((t.expansions.map (nodeResidual env)).flatten) with
  | ok u => simp [Except.map, hp]
  | error e => simp [Except.map, hp]

/-- C4: `URITemplate.expanded` is true exactly when the template's own
string form equals its expansion with no bindings. -/
theorem expanded_iff_expand_empty_env_eq_str (t : URITemplate) :
    t.expanded = true ↔ t.expand [] = some (templateStr t) := by
  unfold URITemplate.expanded
  cases h : t.expand [] with
  | none => simp
  | some s =>
    simp only [Option.some.injEq, beq_iff_eq]
    constructor
    · intro e; rw [e]
    · intro e; rw [e]

/-- C10: parsing the template `{}` (a directive with an empty body) fails
with `ExpansionInvalid`: the empty body matches no operator and is not a
reserved operator either. -/
theorem empty_directive_invalid :
    URITemplate.parse ['{', '}'] = .error (.expansionInvalid ['{', '}']) :=
  rfl

/-- C8 counterexample: the claim says parsing `{1x}` fails with
`VariableInvalid`, but it succeeds: a digit is a legal variable-start
character (spec section 4.1 and RFC 6570 `varchar`, mirrored by the
dispatch regex `[a-zA-Z0-9_]` of uritemplate.py line 53), so `{1x}`
parses to a simple expansion over the variable `1x`. -/
theorem digit_start_parses_ctrex :
    URITemplate.parse ['{', '1', 'x', '}'] =
      .ok ⟨[.directive .simple [⟨['1', 'x'], 0, false, false, none⟩]]⟩ :=
  rfl

/-- C8 (amended): a variable specification whose first character is not a
legal variable-start character is rejected with `VariableInvalid`
(variable.py lines 41-42), but a digit is a legal start character, so
`{1x}` parses successfully. -/
theorem var_start_check_spec :
    URITemplate.parse ['{', '1', 'x', '}'] =
      .ok ⟨[.directive .simple [⟨['1', 'x'], 0, false, false, none⟩]]⟩
    ∧ ∀ (c0 : Char) (rest : List Char), isVarStart c0 = false →
      parseVariable (c0 :: rest) = .error (.variableInvalid (c0 :: rest)) := by
  refine ⟨rfl, fun c0 rest h => ?_⟩
  unfold parseVariable
  simp [h]

/-- C8 witness: the start-character check rejects `-x`, whose first
character is not a legal variable start. -/
theorem var_start_check_witness :
    isVarStart '-' = false
    ∧ parseVariable ['-', 'x'] = .error (.variableInvalid ['-', 'x']) :=
  ⟨by decide, var_start_check_spec.2 '-' ['x'] (by decide)⟩

/-- C9 counterexample: the claim quantifies over every template containing
a reserved-operator directive, but in `{}{!x}` the earlier part `{}`
raises `ExpansionInvalid` first, so construction does not raise
`ExpansionReserved`. -/
theorem reserved_op_not_first_error_ctrex :
    URITemplate.parse ['{', '}', '{', '!', 'x', '}'] =
      .error (.expansionInvalid ['{', '}'])
    ∧ (PErr.expansionInvalid ['{', '}'] ≠ PErr.expansionReserved ['{', '}']) :=
  ⟨rfl, by decide⟩

/-- C9 (amended): a directive part whose body begins with one of `=`,
`!`, `@`, `|` is rejected with `ExpansionReserved` when the parser
reaches it (uritemplate.py lines 74-75); in particular `{!x}`, whose
only part it is, fails with `ExpansionReserved`. -/
theorem reserved_op_dispatch_spec :
    URITemplate.parse ['{', '!', 'x', '}'] =
      .error (.expansionReserved ['{', '!', 'x', '}'])
    ∧ ∀ (c : Char) (mid : List Char), c ∈ opReserved →
      processPart ('{' :: c :: mid ++ ['}']) =
        .error (.expansionReserved ('{' :: c :: mid ++ ['}'])) := by
  refine ⟨rfl, fun c mid hc => ?_⟩
  have hcond : (decide (('{' :: c :: mid ++ ['}']).head? = some '{')
      && decide (('{' :: c :: mid ++ ['}']).getLast? = some '}')) = true := by
    rw [List.getLast?_concat]
    rfl
  have hbody : ((('{' :: c :: mid ++ ['}']).drop 1)).dropLast = c :: mid := by
    show ((c :: mid) ++ ['}']).dropLast = c :: mid
    exact List.dropLast_concat
  have hstart : simpleStartMatch (c :: mid) = false := by
    fin_cases hc <;> rcases mid with _ | ⟨m1, _ | ⟨m2, mr⟩⟩ <;> rfl
  unfold processPart
  rw [if_pos hcond]
  simp only [hbody, hstart, Bool.false_eq_true, if_false]
  fin_cases hc <;> rfl

/-- C9 witness: the reserved-operator dispatch at the concrete part
`{@y}`. -/
theorem reserved_op_dispatch_witness :
    processPart ['{', '@', 'y', '}'] =
      .error (.expansionReserved ['{', '@', 'y', '}']) :=
  reserved_op_dispatch_spec.2 '@' ['y'] (by decide)

/-- Helper: the `:` branch of `parseVarAfterEq` succeeds exactly on a
legal 1-3 digit nonzero suffix, storing its integer value. -/
theorem afterEq_colon (vspec : List Char) (d : Option (List Char))
    (l r : List Char) (hsp : splitOnFirst ':' vspec = some (l, r)) :
    (∀ v, parseVarAfterEq vspec d = .ok v →
      goodPrefix r = true ∧ v.max_length = digitsToNat r)
    ∧ (goodPrefix r = false →
      ∃ m, parseVarAfterEq vspec d = .error (.variableInvalid m)) := by
  have hred : parseVarAfterEq vspec d =
      (if 0 < r.length && r.length < 4 then
        if r.all isDigit then
          if digitsToNat r = 0 then .error (.variableInvalid (l ++ ':' :: r))
          else scanName l (digitsToNat r) false false d l []
        else .error (.variableInvalid (l ++ ':' :: r))
      else .error (.variableInvalid (l ++ ':' :: r))) := by
    unfold parseVarAfterEq
    rw [hsp]
  constructor
  · intro v hv
    rw [hred] at hv
    split at hv
    · split at hv
      · split at hv
        · simp at hv
        · have hfields := scanName_ok_fields l (digitsToNat r) false false d l [] v hv
          refine ⟨?_, hfields.1⟩
          rename_i h1 h2 h3
          simp only [Bool.and_eq_true, decide_eq_true_eq] at h1
          simp [goodPrefix, h1.1, h1.2, h2, h3]
      · simp at hv
    · simp at hv
  · intro hbad
    rw [hred]
    split
    · split
      · split
        · exact ⟨l ++ ':' :: r, rfl⟩
        · exfalso
          rename_i h1 h2 h3
          simp only [Bool.and_eq_true, decide_eq_true_eq] at h1
          simp [goodPrefix, h1.1, h1.2, h2, h3] at hbad
      · exact ⟨l ++ ':' :: r, rfl⟩
    · exact ⟨l ++ ':' :: r, rfl⟩

/-- C6: for every variable specification that, after the `=` default
split, contains `:`, parsing succeeds only when the suffix after the
first `:` is 1-3 decimal digits of nonzero value, in which case
`max_length` is set to that value; any other suffix raises
`VariableInvalid`. -/
theorem max_length_suffix_spec (vs l r : List Char)
    (hsp : splitOnFirst ':' (leftOfEq vs) = some (l, r)) :
    (∀ v, parseVariable vs = .ok v →
      goodPrefix r = true ∧ v.max_length = digitsToNat r)
    ∧ (goodPrefix r = false →
      ∃ m, parseVariable vs = .error (.variableInvalid m)) := by
  cases vs with
  | nil => simp [leftOfEq, splitOnFirst] at hsp
  | cons c0 tl =>
    simp only [parseVariable]
    by_cases hstart : isVarStart c0 = true
    · rw [if_pos hstart]
      cases heq : splitOnFirst '=' (c0 :: tl) with
      | some p =>
        have hL : leftOfEq (c0 :: tl) = p.1 := by unfold leftOfEq; rw [heq]
        rw [hL] at hsp
        obtain ⟨p1, p2⟩ := p
        exact afterEq_colon p1 (some p2) l r hsp
      | none =>
        have hL : leftOfEq (c0 :: tl) = c0 :: tl := by unfold leftOfEq; rw [heq]
        rw [hL] at hsp
        exact afterEq_colon (c0 :: tl) none l r hsp
    · rw [if_neg hstart]
      constructor
      · intro v hv; simp at hv
      · intro hbad; exact ⟨c0 :: tl, rfl⟩

/-- C6 witness: the suffix `12` of `a:12` is legal and is stored as
`max_length = 12`. -/
theorem max_length_suffix_witness :
    goodPrefix ['1', '2'] = true
    ∧ Variable.max_length ⟨['a'], 12, false, false, none⟩ =
        digitsToNat ['1', '2'] :=
  (max_length_suffix_spec ['a', ':', '1', '2'] ['a'] ['1', '2']
    (by decide)).1 ⟨['a'], 12, false, false, none⟩ (by decide)

/-- Helper: every successful `parseVarAfterEq` satisfies the two grammar
invariants of the Variable fields. -/
theorem afterEq_invariants (vspec : List Char) (d : Option (List Char))
    (v : Variable) (h : parseVarAfterEq vspec d = .ok v) :
    (v.max_length ≠ 0 → v.explode = false)
    ∧ (v.array = true → v.explode = true) := by
  unfold parseVarAfterEq at h
  split at h
  · split at h
    · split at h
      · split at h
        · simp at h
        · obtain ⟨h1, h2, h3, h4⟩ := scanName_ok_fields _ _ _ _ _ _ _ _ h
          rw [h2, h3]
          exact ⟨fun _ => rfl, fun hb => by simp at hb⟩
      · simp at h
    · simp at h
  · split at h
    · simp at h
    · split at h
      · obtain ⟨h1, h2, h3, h4⟩ := scanName_ok_fields _ _ _ _ _ _ _ _ h
        rw [h1, h2, h3]
        exact ⟨fun hb => by simp at hb, fun hb => by simp at hb⟩
      · split at h
        · obtain ⟨h1, h2, h3, h4⟩ := scanName_ok_fields _ _ _ _ _ _ _ _ h
          rw [h1, h2, h3]
          exact ⟨fun hb => by simp at hb, fun _ => rfl⟩
        · obtain ⟨h1, h2, h3, h4⟩ := scanName_ok_fields _ _ _ _ _ _ _ _ h
          rw [h1, h2, h3]
          exact ⟨fun hb => by simp at hb, fun hb => by simp at hb⟩

/-- C7: every `Variable` constructed without raising satisfies both
invariants: a set `max_length` excludes `explode`, and `array` implies
`explode`. -/
theorem variable_invariants (vs : List Char) (v : Variable)
    (h : parseVariable vs = .ok v) :
    (v.max_length ≠ 0 → v.explode = false)
    ∧ (v.array = true → v.explode = true) := by
  cases vs with
  | nil => exact afterEq_invariants [] none v h
  | cons c0 tl =>
    simp only [parseVariable] at h
    by_cases hstart : isVarStart c0 = true
    · rw [if_pos hstart] at h
      cases heq : splitOnFirst '=' (c0 :: tl) with
      | some p =>
        rw [heq] at h
        obtain ⟨p1, p2⟩ := p
        exact afterEq_invariants p1 (some p2) v h
      | none =>
        rw [heq] at h
        exact afterEq_invariants (c0 :: tl) none v h
    · rw [if_neg hstart] at h
      simp at h

/-- C7 witness: the variable specification `a[]` parses with
`max_length = 0`, `explode = true`, `array = true`, satisfying both
invariants. -/
theorem variable_invariants_witness :
    (Variable.max_length ⟨['a'], 0, true, true, none⟩ ≠ 0 →
      Variable.explode ⟨['a'], 0, true, true, none⟩ = false)
    ∧ (Variable.array ⟨['a'], 0, true, true, none⟩ = true →
      Variable.explode ⟨['a'], 0, true, true, none⟩ = true) :=
  variable_invariants ['a', '[', ']'] ⟨['a'], 0, true, true, none⟩ (by decide)

/-! ### OrderedDict lemmas for C5 -/

/-- First-occurrence deduplication only depends on the membership of the
seen set. -/
theorem firstDedupFrom_congr (ns : List (List Char)) :
    ∀ s1 s2, (∀ a, a ∈ s1 ↔ a ∈ s2) →
      firstDedupFrom s1 ns = firstDedupFrom s2 ns := by
  induction ns with
  | nil => intro s1 s2 _; rfl
  | cons n ns ih =>
    intro s1 s2 hmem
    unfold firstDedupFrom
    by_cases hn : n ∈ s1
    · rw [if_pos hn, if_pos ((hmem n).1 hn)]
      exact ih s1 s2 hmem
    · rw [if_neg hn, if_neg (fun hc => hn ((hmem n).2 hc))]
      rw [ih (n :: s1) (n :: s2) (by intro a; simp [hmem a])]

/-- Overwriting an existing key leaves the key sequence unchanged. -/
theorem mapfst_replace (m : List (List Char × Variable)) (v : Variable) :
    (m.map (fun p => if p.1 = v.name then (v.name, v) else p)).map Prod.fst =
      m.map Prod.fst := by
  induction m with
  | nil => rfl
  | cons p rest ih =>
    simp only [List.map_cons, ih]
    by_cases hp : p.1 = v.name
    · rw [if_pos hp]; simp [hp]
    · rw [if_neg hp]

/-- The `any` test of `odInsert` is key membership. -/
theorem any_eq_mem (m : List (List Char × Variable)) (k : List Char) :
    m.any (fun p => p.1 = k) = true ↔ k ∈ m.map Prod.fst := by
  induction m with
  | nil => simp
  | cons p rest ih =>
    simp only [List.any_cons, List.map_cons, List.mem_cons, Bool.or_eq_true,
      decide_eq_true_eq]
    constructor
    · rintro (h | h)
      · exact Or.inl h.symm
      · exact Or.inr (ih.1 h)
    · rintro (h | h)
      · exact Or.inl h.symm
      · exact Or.inr (ih.2 h)

/-- The keys after one `odInsert`: unchanged for an existing key,
appended for a new one. -/
theorem odInsert_keys (m : List (List Char × Variable)) (v : Variable) :
    (odInsert m v).map Prod.fst =
      if v.name ∈ m.map Prod.fst then m.map Prod.fst
      else m.map Prod.fst ++ [v.name] := by
  unfold odInsert
  by_cases hmem : v.name ∈ m.map Prod.fst
  · rw [if_pos ((any_eq_mem m v.name).2 hmem), if_pos hmem, mapfst_replace]
  · rw [if_neg (fun hc => hmem ((any_eq_mem m v.name).1 hc)), if_neg hmem]
    simp

/-- The keys of the `OrderedDict` fold: the starting keys followed by the
first-occurrence-deduplicated new names, in insertion order. -/
theorem odFold_keys_from (vs : List Variable) :
    ∀ m, ((vs.foldl odInsert m).map Prod.fst) =
      m.map Prod.fst ++ firstDedupFrom (m.map Prod.fst) (vs.map Variable.name) := by
  induction vs with
  | nil => intro m; simp [firstDedupFrom]
  | cons v vs ih =>
    intro m
    simp only [List.foldl_cons, List.map_cons]
    rw [ih (odInsert m v), odInsert_keys]
    simp only [firstDedupFrom]
    by_cases hmem : v.name ∈ m.map Prod.fst
    · rw [if_pos hmem, if_pos hmem]
    · rw [if_neg hmem, if_neg hmem]
      rw [firstDedupFrom_congr (vs.map Variable.name)
        (m.map Prod.fst ++ [v.name]) (v.name :: m.map Prod.fst)
        (fun a => by
          rw [List.mem_append, List.mem_singleton, List.mem_cons]
          exact or_comm)]
      rw [List.append_assoc, List.singleton_append]

/-- Overwriting the entries of one key does not change lookups of other
keys. -/
theorem lookupOD_replace_ne (m : List (List Char × Variable)) (v : Variable)
    (k : List Char) (hk : k ≠ v.name) :
    lookupOD (m.map (fun p => if p.1 = v.name then (v.name, v) else p)) k =
      lookupOD m k := by
  induction m with
  | nil => rfl
  | cons p rest ih =>
    obtain ⟨k2, w⟩ := p
    have hk' : ¬ (v.name = k) := fun hc => hk hc.symm
    simp only [List.map_cons]
    by_cases hp : k2 = v.name
    · subst hp
      have hhead : (if v.name = v.name then ((v.name : List Char), v)
          else (v.name, w)) = (v.name, v) := if_pos rfl
      rw [hhead]
      simp only [lookupOD]
      rw [if_neg hk', if_neg hk']
      exact ih
    · have hhead : (if k2 = v.name then ((v.name : List Char), v)
          else (k2, w)) = (k2, w) := if_neg hp
      rw [hhead]
      simp only [lookupOD]
      by_cases hke : k2 = k
      · rw [if_pos hke, if_pos hke]
      · rw [if_neg hke, if_neg hke]
        exact ih

/-- After overwriting an existing key, looking it up yields the new
value. -/
theorem lookupOD_replace_self (m : List (List Char × Variable)) (v : Variable)
    (hmem : v.name ∈ m.map Prod.fst) :
    lookupOD (m.map (fun p => if p.1 = v.name then (v.name, v) else p)) v.name =
      some v := by
  induction m with
  | nil => simp at hmem
  | cons p rest ih =>
    obtain ⟨k2, w⟩ := p
    simp only [List.map_cons]
    by_cases hp : k2 = v.name
    · subst hp
      have hhead : (if v.name = v.name then ((v.name : List Char), v)
          else (v.name, w)) = (v.name, v) := if_pos rfl
      rw [hhead]
      simp [lookupOD]
    · simp only [List.map_cons, List.mem_cons] at hmem
      have hmem' : v.name ∈ rest.map Prod.fst := by
        rcases hmem with h | h
        · exact absurd h.symm hp
        · exact h
      have hhead : (if k2 = v.name then ((v.name : List Char), v)
          else (k2, w)) = (k2, w) := if_neg hp
      rw [hhead]
      simp only [lookupOD]
      rw [if_neg hp]
      exact ih hmem'

/-- Lookup distributes over append. -/
theorem lookupOD_append (m l : List (List Char × Variable)) (k : List Char) :
    lookupOD (m ++ l) k =
      (match lookupOD m k with
       | some w => some w
       | none => lookupOD l k) := by
  induction m with
  | nil => rfl
  | cons p rest ih =>
    obtain ⟨k2, w⟩ := p
    simp only [List.cons_append, lookupOD]
    by_cases hke : k2 = k
    · rw [if_pos hke, if_pos hke]
    · rw [if_neg hke, if_neg hke]
      exact ih

/-- A key absent from the key sequence looks up to nothing. -/
theorem lookupOD_none_of_not_mem (m : List (List Char × Variable))
    (k : List Char) (h : k ∉ m.map Prod.fst) : lookupOD m k = none := by
  induction m with
  | nil => rfl
  | cons p rest ih =>
    obtain ⟨k2, w⟩ := p
    simp only [List.map_cons, List.mem_cons] at h
    simp only [lookupOD]
    rw [if_neg (fun hc : k2 = k => h (Or.inl hc.symm))]
    exact ih (fun hc => h (Or.inr hc))

/-- Lookup after one `odInsert`: the inserted name yields the inserted
value, all others are unchanged. -/
theorem lookup_odInsert (m : List (List Char × Variable)) (v : Variable)
    (k : List Char) :
    lookupOD (odInsert m v) k =
      if k = v.name then some v else lookupOD m k := by
  unfold odInsert
  by_cases hmem : m.any (fun p => p.1 = v.name) = true
  · rw [if_pos hmem]
    by_cases hk : k = v.name
    · subst hk
      rw [if_pos rfl]
      exact lookupOD_replace_self m v ((any_eq_mem m v.name).1 hmem)
    · rw [if_neg hk]
      exact lookupOD_replace_ne m v k hk
  · rw [if_neg hmem]
    have hnot : v.name ∉ m.map Prod.fst :=
      fun hc => hmem ((any_eq_mem m v.name).2 hc)
    rw [lookupOD_append]
    by_cases hk : k = v.name
    · subst hk
      rw [lookupOD_none_of_not_mem m v.name hnot, if_pos rfl]
      simp [lookupOD]
    · rw [if_neg hk]
      cases hm : lookupOD m k with
      | some w => rfl
      | none =>
        simp only [lookupOD]
        rw [if_neg (fun hc : v.name = k => hk hc.symm)]

/-- Lookup in the `OrderedDict` fold returns the last occurrence of a
name, else the starting value. -/
theorem odFold_lookup_from (vs : List Variable) :
    ∀ (m : List (List Char × Variable)) (k : List Char),
      lookupOD (vs.foldl odInsert m) k =
        (match lastWith vs k with
         | some w => some w
         | none => lookupOD m k) := by
  induction vs with
  | nil => intro m k; rfl
  | cons v vs ih =>
    intro m k
    simp only [List.foldl_cons]
    rw [ih (odInsert m v) k, lookup_odInsert]
    simp only [lastWith]
    cases hl : lastWith vs k with
    | some w => rfl
    | none =>
      by_cases hk : k = v.name
      · subst hk
        rw [if_pos rfl, if_pos rfl]
      · rw [if_neg hk, if_neg (fun hc : v.name = k => hk hc.symm)]

/-- Every entry of the fold keys is the name of its value. -/
theorem odInsert_entry_names (m : List (List Char × Variable)) (v : Variable)
    (hm : ∀ p ∈ m, p.1 = p.2.name) :
    ∀ p ∈ odInsert m v, p.1 = p.2.name := by
  unfold odInsert
  by_cases hmem : m.any (fun p => p.1 = v.name) = true
  · rw [if_pos hmem]
    intro p hp
    obtain ⟨q, hq, he⟩ := List.mem_map.1 hp
    by_cases hqn : q.1 = v.name
    · rw [if_pos hqn] at he
      rw [← he]
    · rw [if_neg hqn] at he
      rw [← he]
      exact hm q hq
  · rw [if_neg hmem]
    intro p hp
    rcases List.mem_append.1 hp with h | h
    · exact hm p h
    · simp only [List.mem_singleton] at h
      rw [h]

/-- The entry-name invariant is preserved across the whole fold. -/
theorem odFold_entry_names (vs : List Variable) :
    ∀ m, (∀ p ∈ m, p.1 = p.2.name) →
      ∀ p ∈ vs.foldl odInsert m, p.1 = p.2.name := by
  induction vs with
  | nil => intro m hm; exact hm
  | cons v vs ih =>
    intro m hm
    simp only [List.foldl_cons]
    exact ih (odInsert m v) (odInsert_entry_names m v hm)

/-- `odInsert` preserves key distinctness. -/
theorem odInsert_keys_nodup (m : List (List Char × Variable)) (v : Variable)
    (h : (m.map Prod.fst).Nodup) : ((odInsert m v).map Prod.fst).Nodup := by
  rw [odInsert_keys]
  by_cases hmem : v.name ∈ m.map Prod.fst
  · rw [if_pos hmem]; exact h
  · rw [if_neg hmem]
    simp [List.nodup_append, h, hmem]

/-- Key distinctness is preserved across the whole fold. -/
theorem odFold_keys_nodup (vs : List Variable) :
    ∀ m, ((m.map Prod.fst) : List (List Char)).Nodup →
      (((vs.foldl odInsert m).map Prod.fst)).Nodup := by
  induction vs with
  | nil => intro m h; exact h
  | cons v vs ih =>
    intro m h
    simp only [List.foldl_cons]
    exact ih (odInsert m v) (odInsert_keys_nodup m v h)

/-- With distinct keys, membership determines the lookup. -/
theorem lookupOD_of_mem (m : List (List Char × Variable)) (k : List Char)
    (w : Variable) (hnd : (m.map Prod.fst).Nodup) (hmem : (k, w) ∈ m) :
    lookupOD m k = some w := by
  induction m with
  | nil => simp at hmem
  | cons p rest ih =>
    obtain ⟨k2, w2⟩ := p
    simp only [List.map_cons, List.nodup_cons] at hnd
    simp only [lookupOD]
    rcases List.mem_cons.1 hmem with h | h
    · injection h with h1 h2
      subst h1
      subst h2
      rw [if_pos rfl]
    · by_cases hke : k2 = k
      · exfalso
        subst hke
        exact hnd.1 (List.mem_map_of_mem Prod.fst h)
      · rw [if_neg hke]
        exact ih hnd.2 h

/-- C5 (amended): `variable_names` is the first-occurrence-ordered
deduplication of all variable names; it lists exactly the names of
`variables`; and the Variable retained for each name is the LAST
occurrence of that name (the `OrderedDict` assignment keeps the first
position but overwrites the value), not the first as the claim states. -/
theorem variables_last_occurrence (t : URITemplate) :
    URITemplate.variable_names t =
      firstDedupFrom [] ((allVars t).map Variable.name)
    ∧ URITemplate.variable_names t = (URITemplate.variables t).map Variable.name
    ∧ ∀ v, v ∈ URITemplate.variables t → lastWith (allVars t) v.name = some v := by
  have hinv : ∀ p ∈ odFold (allVars t), p.1 = p.2.name := by
    unfold odFold
    exact odFold_entry_names (allVars t) [] (by intro p hp; simp at hp)
  have hnd : ((odFold (allVars t)).map Prod.fst).Nodup := by
    unfold odFold
    exact odFold_keys_nodup (allVars t) [] (by simp)
  have hkeys : (odFold (allVars t)).map Prod.fst =
      firstDedupFrom [] ((allVars t).map Variable.name) := by
    unfold odFold
    have h := odFold_keys_from (allVars t) []
    simpa using h
  have hnk : URITemplate.variable_names t = (odFold (allVars t)).map Prod.fst := by
    unfold URITemplate.variable_names
    exact List.map_congr_left (fun p hp => (hinv p hp).symm)
  refine ⟨hnk.trans hkeys, ?_, ?_⟩
  · unfold URITemplate.variable_names URITemplate.variables
    rw [List.map_map]
    rfl
  · intro v hv
    unfold URITemplate.variables at hv
    obtain ⟨p, hp, hpv⟩ := List.mem_map.1 hv
    obtain ⟨pk, pv⟩ := p
    have hk1 : pk = pv.name := hinv (pk, pv) hp
    have hpv' : v = pv := hpv.symm
    subst hpv'
    rw [hk1] at hp
    have hlook : lookupOD (odFold (allVars t)) v.name = some v :=
      lookupOD_of_mem _ _ _ hnd hp
    have hfold := odFold_lookup_from (allVars t) [] v.name
    rw [show (allVars t).foldl odInsert [] = odFold (allVars t) from rfl] at hfold
    rw [hlook] at hfold
    cases hl : lastWith (allVars t) v.name with
    | some w =>
      rw [hl] at hfold
      exact (show some v = some w from hfold).symm
    | none =>
      rw [hl] at hfold
      exact absurd (show some v = (none : Option Variable) from hfold) (by simp)

/-- C5 counterexample: on `{a:1}{a:2}` the retained Variable for name `a`
is the second specification (`a:2`), not the first as the claim's
first-occurrence-wins wording demands; `firstWinsVariables` is the
claim's wording as a definition. -/
theorem variables_not_first_occurrence_ctrex :
    URITemplate.parse ['{', 'a', ':', '1', '}', '{', 'a', ':', '2', '}'] =
      .ok ⟨[.directive .simple [⟨['a'], 1, false, false, none⟩],
        .directive .simple [⟨['a'], 2, false, false, none⟩]]⟩
    ∧ URITemplate.variables ⟨[.directive .simple [⟨['a'], 1, false, false, none⟩],
        .directive .simple [⟨['a'], 2, false, false, none⟩]]⟩ =
          [⟨['a'], 2, false, false, none⟩]
    ∧ firstWinsVariables ⟨[.directive .simple [⟨['a'], 1, false, false, none⟩],
        .directive .simple [⟨['a'], 2, false, false, none⟩]]⟩ =
          [⟨['a'], 1, false, false, none⟩]
    ∧ URITemplate.variables ⟨[.directive .simple [⟨['a'], 1, false, false, none⟩],
        .directive .simple [⟨['a'], 2, false, false, none⟩]]⟩ ≠
      firstWinsVariables ⟨[.directive .simple [⟨['a'], 1, false, false, none⟩],
        .directive .simple [⟨['a'], 2, false, false, none⟩]]⟩ :=
  ⟨rfl, rfl, rfl, by decide⟩

/-- C5 witness: on the parsed `{a:1}{a:2}`, the retained Variable for
name `a` is the last occurrence, `a:2`. -/
theorem variables_last_occurrence_witness :
    lastWith (allVars ⟨[.directive .simple [⟨['a'], 1, false, false, none⟩],
        .directive .simple [⟨['a'], 2, false, false, none⟩]]⟩) ['a'] =
      some ⟨['a'], 2, false, false, none⟩ :=
  (variables_last_occurrence ⟨[.directive .simple [⟨['a'], 1, false, false, none⟩],
    .directive .simple [⟨['a'], 2, false, false, none⟩]]⟩).2.2
    ⟨['a'], 2, false, false, none⟩ (by decide)

end UriTmpl


